import Mathlib

/-!
Shallow embedding of the zamunda-rss-jackett matcher and Matrix thread
composer, together with proofs about them.

The scoring functions (`calculateMatchScore`, `calculateRecencyBonus`,
`findBestMatch`) are translated from the IGDB client source file; the
thread-posting logic (`screenshotLoop`, relation handling) from matrix.go.
Go float64 arithmetic is modelled exactly over ℚ; Go `time.Now()` is passed
as an explicit Unix-seconds parameter `now`.
-/

namespace Zamunda

/-- One IGDB catalog record, restricted to the fields the scoring code reads:
display name, first release date (Unix seconds, 0 = unknown) and category
(0 = main game). -/
structure Game where
  name : String
  firstReleaseDate : Int
  category : Int
deriving DecidableEq

/-- `pre` is a prefix of `l` (on character lists). -/
def listIsPrefixOf : List Char → List Char → Bool
  | [], _ => true
  | _ :: _, [] => false
  | a :: as, b :: bs => a = b && listIsPrefixOf as bs

/-- `sub` occurs somewhere in `l` (on character lists). -/
def listContains (sub : List Char) : List Char → Bool
  | [] => listIsPrefixOf sub []
  | c :: cs => listIsPrefixOf sub (c :: cs) || listContains sub cs

/-- Go `strings.Contains s sub`: `sub` occurs in `s` as a substring. -/
def strContains (s sub : String) : Bool :=
  listContains sub.data s.data

/-- Go `strings.HasPrefix s pre`. -/
def strHasPrefixOf (pre s : String) : Bool :=
  listIsPrefixOf pre.data s.data

/-- Accumulator loop for `goFields`: collect maximal whitespace-free runs. -/
def fieldsAux : List Char → List Char → List String
  | acc, [] => if acc = [] then [] else [String.mk acc.reverse]
  | acc, c :: cs =>
    if c.isWhitespace then
      (if acc = [] then [] else [String.mk acc.reverse]) ++ fieldsAux [] cs
    else fieldsAux (c :: acc) cs

/-- Go `strings.Fields`: split around runs of whitespace, no empty fields. -/
def goFields (s : String) : List String :=
  fieldsAux [] s.data

/-- Go `strings.TrimSpace`: drop leading and trailing whitespace runes. -/
def trimChars (l : List Char) : List Char :=
  ((l.dropWhile Char.isWhitespace).reverse.dropWhile Char.isWhitespace).reverse

/-- Go `strings.ToLower(strings.TrimSpace(s))`, the normalization applied to
the query in `findBestMatch` and to the candidate name in
`calculateMatchScore`. -/
def normalizeName (s : String) : String :=
  String.mk ((trimChars s.data).map Char.toLower)

/-- Year of a Unix timestamp (models Go `time.Unix(t, 0).Year()`; the Go call
uses the process time zone, modelled here as UTC), by the standard
civil-from-days conversion. -/
def yearOfUnix (t : Int) : Int :=
  let days := Int.fdiv t 86400
  let z := days + 719468
  let era := Int.fdiv z 146097
  let doe := z - era * 146097
  let yoe := Int.fdiv (doe - Int.fdiv doe 1460 + Int.fdiv doe 36524 - Int.fdiv doe 146096) 365
  let y := yoe + era * 400
  let doy := doe - (365 * yoe + Int.fdiv yoe 4 - Int.fdiv yoe 100)
  let mp := Int.fdiv (5 * doy + 2) 153
  let m := if mp < 10 then mp + 3 else mp - 9
  if m ≤ 2 then y + 1 else y

/-- Go `releaseTime.Sub(now).Hours() / (24 * 365.25)`: the signed difference
in years between a release timestamp and `now` (both Unix seconds);
24 * 365.25 * 3600 = 31557600. -/
def yearsDiff (now releaseDate : Int) : ℚ :=
  ((releaseDate - now : Int) : ℚ) / 31557600

/-- Go `calculateRecencyBonus`: a bonus in [0, 0.2] from how close the release
date is to `now`; 0 when the release date is unknown. -/
def calculateRecencyBonus (now releaseDate : Int) : ℚ :=
  if releaseDate = 0 then 0
  else if yearsDiff now releaseDate > 0 then
    if yearsDiff now releaseDate ≤ 1 then 0.2
    else if yearsDiff now releaseDate ≤ 2 then
      0.2 - (yearsDiff now releaseDate - 1) * 0.1
    else 0.05
  else if -(yearsDiff now releaseDate) ≤ 2 then 0.2
  else if -(yearsDiff now releaseDate) ≤ 5 then
    0.2 - (-(yearsDiff now releaseDate) - 2) * 0.033
  else if -(yearsDiff now releaseDate) ≤ 10 then
    0.1 - (-(yearsDiff now releaseDate) - 5) * 0.01
  else 0.05

/-- The fixed penalty keyword list of `calculateMatchScore`. -/
def penaltyWords : List String :=
  ["pack", "collection", "bundle", "double", "triple", "quadruple",
   "complete", "ultimate", "deluxe", "edition", "remastered",
   "remaster", "definitive", "anniversary", "gold", "platinum",
   "+", "plus", "and", "&", "with", "featuring", "including"]

/-- The base textual score of `calculateMatchScore`: the if/else-if chain on
the (already normalized) query and candidate name, including the source
duplicate of the exact-match test with constant 0.95. The word-overlap count
models the Go double loop that breaks out of the inner loop at the first
equal game word. -/
def baseNameScore (searchQuery gameName : String) : ℚ :=
  if gameName = searchQuery then 1.0
  else if gameName = searchQuery then 0.95
  else if strContains gameName searchQuery then
    if strHasPrefixOf searchQuery gameName then 0.9 else 0.8
  else if strContains searchQuery gameName then 0.7
  else
    let searchWords := goFields searchQuery
    let gameWords := goFields gameName
    let wordMatches := searchWords.countP (fun w => gameWords.contains w)
    if searchWords.length > 0 then
      let wordScore : ℚ := (wordMatches : ℚ) / (searchWords.length : ℚ)
      if wordScore > 0.5 then wordScore * 0.6 else 0
    else 0

/-- The modifier pipeline of `calculateMatchScore` before the noise-keyword
penalty: recency bonus, main-game bonus, old-release (pre-2010) halving. -/
def scorePreNoise (now : Int) (game : Game) (base : ℚ) : ℚ :=
  let s1 := base + calculateRecencyBonus now game.firstReleaseDate
  let s2 := if game.category = 0 then s1 + 0.1 else s1
  if game.firstReleaseDate ≠ 0 then
    if yearOfUnix game.firstReleaseDate < 2010 then s2 * 0.5 else s2
  else s2

/-- The noise-keyword test of `calculateMatchScore`: the normalized candidate
name contains some penalty keyword as a substring (the Go loop breaks at the
first match, so one multiplication at most). -/
def hasNoisePenalty (gameName : String) : Bool :=
  penaltyWords.any (fun w => strContains gameName w)

/-- Go `calculateMatchScore searchQuery game`: base textual score, then, when
positive, the modifier pipeline, a single 0.3 noise penalty, and a final cap
at 1.0. The query is expected pre-normalized by the caller (`findBestMatch`),
exactly as in the source. -/
def calculateMatchScore (searchQuery : String) (now : Int) (game : Game) : ℚ :=
  let gameName := normalizeName game.name
  let baseScore := baseNameScore searchQuery gameName
  if baseScore > 0 then
    let s3 := scorePreNoise now game baseScore
    let s4 := if hasNoisePenalty gameName then s3 * 0.3 else s3
    if s4 > 1.0 then 1.0 else s4
  else baseScore

/-- One step of the selection loop in `findBestMatch`: the incumbent is
replaced only when there is none yet or the new score is strictly greater. -/
def bestStep (f : Game → ℚ) (acc : Option Game × ℚ) (game : Game) :
    Option Game × ℚ :=
  let score := f game
  match acc.1 with
  | none => (some game, score)
  | some _ => if score > acc.2 then (some game, score) else acc

/-- Go `findBestMatch searchQuery games`: none on an empty slice, otherwise
the fold of `bestStep` over the games, starting from a nil incumbent with
best score 0. -/
def findBestMatch (searchQuery : String) (now : Int) (games : List Game) :
    Option Game :=
  if games.isEmpty then none
  else
    let searchLower := normalizeName searchQuery
    (games.foldl (bestStep (calculateMatchScore searchLower now)) (none, 0)).1

/-- The resolution steps of `SearchGameWithImages` around `findBestMatch`:
an empty result set is an error, and a nil best match is an error. -/
def resolveGame (gameName : String) (now : Int) (games : List Game) :
    Except String Game :=
  if games.length = 0 then Except.error "no games found"
  else
    match findBestMatch gameName now games with
    | none => Except.error "no suitable match found"
    | some g => Except.ok g

/-! ### Bounds on the scoring components -/

lemma recencyBonus_nonneg (now r : Int) : 0 ≤ calculateRecencyBonus now r := by
  unfold calculateRecencyBonus
  split_ifs <;> linarith

lemma recencyBonus_le (now r : Int) : calculateRecencyBonus now r ≤ 0.2 := by
  unfold calculateRecencyBonus
  split_ifs <;> linarith

lemma baseNameScore_nonneg (q n : String) : 0 ≤ baseNameScore q n := by
  unfold baseNameScore
  simp only []
  split_ifs <;> positivity

/-- The matched-word fraction of the word-overlap branch is at most 1. -/
lemma wordFraction_le_one (q n : String) (h : (goFields q).length > 0) :
    ((goFields q).countP (fun w => (goFields n).contains w) : ℚ) /
      ((goFields q).length : ℚ) ≤ 1 := by
  have hm : (goFields q).countP (fun w => (goFields n).contains w) ≤ (goFields q).length :=
    List.countP_le_length _
  have hl : 0 < ((goFields q).length : ℚ) := by exact_mod_cast h
  rw [div_le_one hl]
  exact_mod_cast hm

lemma baseNameScore_le_one (q n : String) : baseNameScore q n ≤ 1 := by
  unfold baseNameScore
  simp only []
  split_ifs with h1 h2 h3 h4 h5 h6
  · norm_num
  · norm_num
  · norm_num
  · norm_num
  · have hfrac := wordFraction_le_one q n h5
    linarith
  · norm_num
  · norm_num

lemma scorePreNoise_nonneg (now : Int) (g : Game) (b : ℚ) (hb : 0 ≤ b) :
    0 ≤ scorePreNoise now g b := by
  have hr := recencyBonus_nonneg now g.firstReleaseDate
  unfold scorePreNoise
  simp only []
  split_ifs <;> linarith

lemma scorePreNoise_le (now : Int) (g : Game) (b : ℚ) (_hb0 : 0 ≤ b) (hb : b ≤ 1) :
    scorePreNoise now g b ≤ 13/10 := by
  have hr := recencyBonus_le now g.firstReleaseDate
  have hr0 := recencyBonus_nonneg now g.firstReleaseDate
  unfold scorePreNoise
  simp only []
  split_ifs <;> linarith

lemma score_nonneg (q : String) (now : Int) (g : Game) :
    0 ≤ calculateMatchScore q now g := by
  have hb := baseNameScore_nonneg q (normalizeName g.name)
  unfold calculateMatchScore
  simp only []
  have hp := scorePreNoise_nonneg now g (baseNameScore q (normalizeName g.name)) hb
  split_ifs <;> linarith

lemma score_le_one (q : String) (now : Int) (g : Game) :
    calculateMatchScore q now g ≤ 1 := by
  have hb := baseNameScore_le_one q (normalizeName g.name)
  unfold calculateMatchScore
  simp only []
  split_ifs <;> linarith

/-- C1: for every query string and candidate, the score returned by
`calculateMatchScore` lies in [0, 1]: never negative and never above 1.0 even
after the additive recency bonus (up to 0.2) and the main-game bonus (0.1),
because the final score is clamped at 1.0. -/
theorem score_always_in_unit_interval (q : String) (now : Int) (g : Game) :
    0 ≤ calculateMatchScore q now g ∧ calculateMatchScore q now g ≤ 1 :=
  ⟨score_nonneg q now g, score_le_one q now g⟩

/-! ### The duplicated exact-match branch (C7) -/

/-- C7: exact equality of the normalized candidate name and the normalized
query always takes the first exact-match branch of `calculateMatchScore`,
yielding base score 1.0; the structurally identical second branch (constant
0.95) is unreachable: no input at all produces the base score 0.95. -/
theorem exact_match_second_branch_unreachable (q n : String) :
    (n = q → baseNameScore q n = 1.0) ∧ baseNameScore q n ≠ 0.95 := by
  constructor
  · intro h
    unfold baseNameScore
    rw [if_pos h]
  · unfold baseNameScore
    simp only []
    split_ifs with h1 h2 h3 h4 h5 h6
    · norm_num
    · norm_num
    · norm_num
    · norm_num
    · have hfrac := wordFraction_le_one q n h5
      intro hc
      linarith
    · norm_num
    · norm_num

/-- Witness for C7: concrete exact match scores base 1.0 and not 0.95. -/
theorem exact_match_second_branch_unreachable_witness :
    baseNameScore "subnautica" "subnautica" = 1.0 ∧
      baseNameScore "subnautica" "subnautica" ≠ 0.95 :=
  ⟨(exact_match_second_branch_unreachable "subnautica" "subnautica").1 rfl,
   (exact_match_second_branch_unreachable "subnautica" "subnautica").2⟩

/-! ### Exact matches dominate (C3) -/

/-- Without the old-release penalty, the pre-noise modifier pipeline never
decreases the score (the recency and category modifiers are additive and
non-negative). -/
lemma scorePreNoise_ge_base_of_no_old (now : Int) (g : Game) (b : ℚ)
    (hold : g.firstReleaseDate = 0 ∨ ¬ yearOfUnix g.firstReleaseDate < 2010) :
    b ≤ scorePreNoise now g b := by
  have hr := recencyBonus_nonneg now g.firstReleaseDate
  have hnp : ¬ (g.firstReleaseDate ≠ 0 ∧ yearOfUnix g.firstReleaseDate < 2010) := by
    rcases hold with h | h
    · simp [h]
    · tauto
  unfold scorePreNoise
  simp only []
  split_ifs with h1 h2 h3
  all_goals first
    | linarith
    | exact absurd (And.intro (by assumption) (by assumption)) hnp

/-- An exact-match candidate that triggers neither the noise-keyword penalty
nor the old-release penalty scores exactly 1. -/
lemma score_exact_eq_one (q : String) (now : Int) (g : Game)
    (hexact : normalizeName g.name = q)
    (hnoise : hasNoisePenalty (normalizeName g.name) = false)
    (hold : g.firstReleaseDate = 0 ∨ ¬ yearOfUnix g.firstReleaseDate < 2010) :
    calculateMatchScore q now g = 1 := by
  have hb1 : baseNameScore q (normalizeName g.name) = 1 := by
    unfold baseNameScore
    rw [if_pos hexact]
    norm_num
  have hge := scorePreNoise_ge_base_of_no_old now g 1 hold
  unfold calculateMatchScore
  simp only []
  rw [hb1, if_pos (show (1:ℚ) > 0 by norm_num), hnoise]
  simp only [Bool.false_eq_true, if_false]
  split_ifs with h
  · norm_num
  · linarith

/-- C3: a candidate whose normalized name equals the normalized query gets the
maximum achievable base score 1.0, and — provided it triggers neither the
noise-keyword penalty nor the old-release (pre-2010) penalty — its final score
is still at least the final score of any non-exact-match candidate for the
same query. -/
theorem exact_match_dominates (q : String) (now : Int) (g h : Game)
    (hexact : normalizeName g.name = q)
    (hnoise : hasNoisePenalty (normalizeName g.name) = false)
    (hold : g.firstReleaseDate = 0 ∨ ¬ yearOfUnix g.firstReleaseDate < 2010)
    (_hnonexact : normalizeName h.name ≠ q) :
    baseNameScore q (normalizeName g.name) = 1 ∧
    (∀ n : String, baseNameScore q n ≤ 1) ∧
    calculateMatchScore q now h ≤ calculateMatchScore q now g := by
  refine ⟨?_, fun n => baseNameScore_le_one q n, ?_⟩
  · unfold baseNameScore
    rw [if_pos hexact]
    norm_num
  · rw [score_exact_eq_one q now g hexact hnoise hold]
    exact score_le_one q now h

/-- Witness for C3: the exact match "Subnautica" against query "subnautica"
dominates the non-exact candidate "Halo". -/
theorem exact_match_dominates_witness :
    baseNameScore "subnautica" (normalizeName "Subnautica") = 1 ∧
    (∀ n : String, baseNameScore "subnautica" n ≤ 1) ∧
    calculateMatchScore "subnautica" 0 ⟨"Halo", 0, 0⟩ ≤
      calculateMatchScore "subnautica" 0 ⟨"Subnautica", 0, 0⟩ :=
  exact_match_dominates "subnautica" 0 ⟨"Subnautica", 0, 0⟩ ⟨"Halo", 0, 0⟩
    (by decide) (by decide) (Or.inl rfl) (by decide)

/-! ### The selection loop of findBestMatch (C4, C5) -/

/-- The best-so-far recursion that the loop of `findBestMatch` computes once
an incumbent exists: keep the incumbent unless the next score is strictly
greater. -/
def bestAux (f : Game → ℚ) (b : Game) : List Game → Game
  | [] => b
  | x :: xs => if f x > f b then bestAux f x xs else bestAux f b xs

lemma foldl_bestStep (f : Game → ℚ) (l : List Game) : ∀ b : Game,
    l.foldl (bestStep f) (some b, f b) = (some (bestAux f b l), f (bestAux f b l)) := by
  induction l with
  | nil => intro b; rfl
  | cons x xs ih =>
    intro b
    have hstep : bestStep f (some b, f b) x =
        if f x > f b then (some x, f x) else (some b, f b) := rfl
    rw [List.foldl_cons, hstep]
    by_cases h : f x > f b
    · rw [if_pos h, show bestAux f b (x :: xs) = bestAux f x xs by simp [bestAux, h]]
      exact ih x
    · rw [if_neg h, show bestAux f b (x :: xs) = bestAux f b xs by simp [bestAux, h]]
      exact ih b

lemma findBestMatch_cons (q : String) (now : Int) (g : Game) (gs : List Game) :
    findBestMatch q now (g :: gs) =
      some (bestAux (calculateMatchScore (normalizeName q) now) g gs) := by
  unfold findBestMatch
  rw [if_neg (by simp)]
  have h0 : bestStep (calculateMatchScore (normalizeName q) now) (none, 0) g =
      (some g, calculateMatchScore (normalizeName q) now g) := rfl
  simp only []
  rw [List.foldl_cons, h0, foldl_bestStep]

lemma le_f_bestAux (f : Game → ℚ) (l : List Game) : ∀ b : Game,
    f b ≤ f (bestAux f b l) := by
  induction l with
  | nil => intro b; exact le_refl _
  | cons x xs ih =>
    intro b
    by_cases h : f x > f b
    · rw [show bestAux f b (x :: xs) = bestAux f x xs by simp [bestAux, h]]
      exact le_of_lt (lt_of_lt_of_le h (ih x))
    · rw [show bestAux f b (x :: xs) = bestAux f b xs by simp [bestAux, h]]
      exact ih b

/-- The element selected by `bestAux` splits the incumbent-prefixed list into a
strictly-smaller prefix and a no-greater suffix: it is the first occurrence of
the maximum. -/
lemma bestAux_split (f : Game → ℚ) (l : List Game) : ∀ b : Game,
    ∃ pre post, b :: l = pre ++ bestAux f b l :: post ∧
      (∀ x ∈ pre, f x < f (bestAux f b l)) ∧
      (∀ x ∈ post, f x ≤ f (bestAux f b l)) := by
  induction l with
  | nil =>
    intro b
    exact ⟨[], [], rfl, by simp, by simp⟩
  | cons x xs ih =>
    intro b
    by_cases h : f x > f b
    · obtain ⟨pre, post, heq, hpre, hpost⟩ := ih x
      have hb : bestAux f b (x :: xs) = bestAux f x xs := by simp [bestAux, h]
      refine ⟨b :: pre, post, ?_, ?_, ?_⟩
      · rw [hb, List.cons_append, ← heq]
      · intro y hy
        rw [hb]
        rcases List.mem_cons.mp hy with rfl | hy2
        · exact lt_of_lt_of_le h (le_f_bestAux f xs x)
        · exact hpre y hy2
      · intro y hy
        rw [hb]
        exact hpost y hy
    · obtain ⟨pre, post, heq, hpre, hpost⟩ := ih b
      have hb : bestAux f b (x :: xs) = bestAux f b xs := by simp [bestAux, h]
      cases pre with
      | nil =>
        rw [List.nil_append] at heq
        injection heq with h1 h2
        refine ⟨[], x :: xs, ?_, by simp, ?_⟩
        · rw [List.nil_append, hb, ← h1]
        · intro y hy
          rw [hb, ← h1]
          rcases List.mem_cons.mp hy with rfl | hy2
          · exact not_lt.mp h
          · have hyp := hpost y (h2 ▸ hy2)
            rwa [← h1] at hyp
      | cons p pre2 =>
        rw [List.cons_append] at heq
        injection heq with h1 h2
        have hblt : f b < f (bestAux f b xs) := by
          have hp := hpre p (by simp)
          rwa [← h1] at hp
        refine ⟨b :: x :: pre2, post, ?_, ?_, ?_⟩
        · rw [hb]
          simp only [List.cons_append]
          rw [← h2]
        · intro y hy
          rw [hb]
          rcases List.mem_cons.mp hy with rfl | hy2
          · exact hblt
          rcases List.mem_cons.mp hy2 with rfl | hy3
          · exact lt_of_le_of_lt (not_lt.mp h) hblt
          · exact hpre y (by simp [hy3])
        · intro y hy
          rw [hb]
          exact hpost y hy

/-- C5: on a non-empty candidate list, `findBestMatch` returns the candidate
of strictly maximum score; on ties it returns the first such candidate in
list order (the incumbent is replaced only by a strictly greater score):
all candidates before the selected one score strictly less, all after it
score no more. -/
theorem resolver_selects_first_maximum (q : String) (now : Int)
    (g : Game) (gs : List Game) :
    ∃ pre post best,
      findBestMatch q now (g :: gs) = some best ∧
      g :: gs = pre ++ best :: post ∧
      (∀ x ∈ pre, calculateMatchScore (normalizeName q) now x <
        calculateMatchScore (normalizeName q) now best) ∧
      (∀ x ∈ post, calculateMatchScore (normalizeName q) now x ≤
        calculateMatchScore (normalizeName q) now best) := by
  obtain ⟨pre, post, heq, hpre, hpost⟩ :=
    bestAux_split (calculateMatchScore (normalizeName q) now) gs g
  exact ⟨pre, post, _, findBestMatch_cons q now g gs, heq, hpre, hpost⟩

/-- C4: resolving against an empty candidate list always fails (NotFound); a
non-empty candidate list always resolves to some candidate — including a
single candidate of any score, with no minimum score threshold. -/
theorem resolver_empty_fails_nonempty_succeeds :
    (∀ (q : String) (now : Int), findBestMatch q now [] = none) ∧
    (∀ (q : String) (now : Int), resolveGame q now [] = Except.error "no games found") ∧
    (∀ (q : String) (now : Int) (gs : List Game), gs ≠ [] →
      ∃ g, resolveGame q now gs = Except.ok g) ∧
    (∀ (q : String) (now : Int) (g : Game), findBestMatch q now [g] = some g) := by
  refine ⟨fun q now => rfl, fun q now => rfl, ?_, ?_⟩
  · intro q now gs hne
    obtain ⟨g, rest, rfl⟩ := List.exists_cons_of_ne_nil hne
    refine ⟨bestAux (calculateMatchScore (normalizeName q) now) g rest, ?_⟩
    unfold resolveGame
    rw [if_neg (by simp), findBestMatch_cons]
  · intro q now g
    rw [findBestMatch_cons]
    rfl

/-- Witness for C4: a singleton candidate list resolves to its only element,
whatever its score. -/
theorem resolver_nonempty_succeeds_witness :
    ∃ g, resolveGame "halo" 0 [⟨"Doom", 0, 0⟩] = Except.ok g :=
  resolver_empty_fails_nonempty_succeeds.2.2.1 "halo" 0 [⟨"Doom", 0, 0⟩] (by simp)

/-! ### Recency-bonus monotonicity within bands (C6) -/

/-- For future releases the recency bonus is non-increasing in the distance
to the release. -/
lemma recencyBonus_future_mono (now r1 r2 : Int) (hr1 : r1 ≠ 0) (hr2 : r2 ≠ 0)
    (h1 : 0 < yearsDiff now r1) (h12 : yearsDiff now r1 ≤ yearsDiff now r2) :
    calculateRecencyBonus now r2 ≤ calculateRecencyBonus now r1 := by
  have h2 : 0 < yearsDiff now r2 := lt_of_lt_of_le h1 h12
  unfold calculateRecencyBonus
  rw [if_neg hr2, if_neg hr1, if_pos h2, if_pos h1]
  split_ifs <;> linarith

/-- For past releases the recency bonus is non-increasing in the years since
release. -/
lemma recencyBonus_past_mono (now r1 r2 : Int) (hr1 : r1 ≠ 0) (hr2 : r2 ≠ 0)
    (h1 : 0 ≤ -(yearsDiff now r1))
    (h12 : -(yearsDiff now r1) ≤ -(yearsDiff now r2)) :
    calculateRecencyBonus now r2 ≤ calculateRecencyBonus now r1 := by
  have hn1 : ¬ yearsDiff now r1 > 0 := by linarith
  have hn2 : ¬ yearsDiff now r2 > 0 := by linarith
  unfold calculateRecencyBonus
  rw [if_neg hr2, if_neg hr1, if_neg hn2, if_neg hn1]
  split_ifs <;> linarith

/-- C6: the recency bonus is monotonically non-increasing as the distance
between the release timestamp and now grows, within each defined time band.
For future releases (`yearsDiff > 0`) the bands are (0,1], (1,2], (2,∞) years;
for past releases, with y = years since release, the bands are [0,2], (2,5],
(5,10], (10,∞); within each band a larger distance never yields a larger
bonus. -/
theorem recency_bonus_band_monotone :
    (∀ (now r1 r2 : Int), r1 ≠ 0 → r2 ≠ 0 →
      0 < yearsDiff now r1 → yearsDiff now r1 ≤ yearsDiff now r2 →
      yearsDiff now r2 ≤ 1 →
      calculateRecencyBonus now r2 ≤ calculateRecencyBonus now r1) ∧
    (∀ (now r1 r2 : Int), r1 ≠ 0 → r2 ≠ 0 →
      1 < yearsDiff now r1 → yearsDiff now r1 ≤ yearsDiff now r2 →
      yearsDiff now r2 ≤ 2 →
      calculateRecencyBonus now r2 ≤ calculateRecencyBonus now r1) ∧
    (∀ (now r1 r2 : Int), r1 ≠ 0 → r2 ≠ 0 →
      2 < yearsDiff now r1 → yearsDiff now r1 ≤ yearsDiff now r2 →
      calculateRecencyBonus now r2 ≤ calculateRecencyBonus now r1) ∧
    (∀ (now r1 r2 : Int), r1 ≠ 0 → r2 ≠ 0 →
      0 ≤ -(yearsDiff now r1) → -(yearsDiff now r1) ≤ -(yearsDiff now r2) →
      -(yearsDiff now r2) ≤ 2 →
      calculateRecencyBonus now r2 ≤ calculateRecencyBonus now r1) ∧
    (∀ (now r1 r2 : Int), r1 ≠ 0 → r2 ≠ 0 →
      2 < -(yearsDiff now r1) → -(yearsDiff now r1) ≤ -(yearsDiff now r2) →
      -(yearsDiff now r2) ≤ 5 →
      calculateRecencyBonus now r2 ≤ calculateRecencyBonus now r1) ∧
    (∀ (now r1 r2 : Int), r1 ≠ 0 → r2 ≠ 0 →
      5 < -(yearsDiff now r1) → -(yearsDiff now r1) ≤ -(yearsDiff now r2) →
      -(yearsDiff now r2) ≤ 10 →
      calculateRecencyBonus now r2 ≤ calculateRecencyBonus now r1) ∧
    (∀ (now r1 r2 : Int), r1 ≠ 0 → r2 ≠ 0 →
      10 < -(yearsDiff now r1) → -(yearsDiff now r1) ≤ -(yearsDiff now r2) →
      calculateRecencyBonus now r2 ≤ calculateRecencyBonus now r1) := by
  refine ⟨?_, ?_, ?_, ?_, ?_, ?_, ?_⟩
  · intro now r1 r2 hr1 hr2 hb1 hb2 _
    exact recencyBonus_future_mono now r1 r2 hr1 hr2 hb1 hb2
  · intro now r1 r2 hr1 hr2 hb1 hb2 _
    exact recencyBonus_future_mono now r1 r2 hr1 hr2 (by linarith) hb2
  · intro now r1 r2 hr1 hr2 hb1 hb2
    exact recencyBonus_future_mono now r1 r2 hr1 hr2 (by linarith) hb2
  · intro now r1 r2 hr1 hr2 hb1 hb2 _
    exact recencyBonus_past_mono now r1 r2 hr1 hr2 hb1 hb2
  · intro now r1 r2 hr1 hr2 hb1 hb2 _
    exact recencyBonus_past_mono now r1 r2 hr1 hr2 (by linarith) hb2
  · intro now r1 r2 hr1 hr2 hb1 hb2 _
    exact recencyBonus_past_mono now r1 r2 hr1 hr2 (by linarith) hb2
  · intro now r1 r2 hr1 hr2 hb1 hb2
    exact recencyBonus_past_mono now r1 r2 hr1 hr2 (by linarith) hb2

/-- Witness for C6: one concrete pair of release dates in each band
(distances in whole or half years around `now = 0`). -/
theorem recency_bonus_band_monotone_witness :
    calculateRecencyBonus 0 31557600 ≤ calculateRecencyBonus 0 15778800 ∧
    calculateRecencyBonus 0 63115200 ≤ calculateRecencyBonus 0 47336400 ∧
    calculateRecencyBonus 0 126230400 ≤ calculateRecencyBonus 0 94672800 ∧
    calculateRecencyBonus 0 (-31557600) ≤ calculateRecencyBonus 0 (-15778800) ∧
    calculateRecencyBonus 0 (-126230400) ≤ calculateRecencyBonus 0 (-94672800) ∧
    calculateRecencyBonus 0 (-220903200) ≤ calculateRecencyBonus 0 (-189345600) ∧
    calculateRecencyBonus 0 (-378691200) ≤ calculateRecencyBonus 0 (-347133600) :=
  ⟨recency_bonus_band_monotone.1 0 15778800 31557600 (by norm_num) (by norm_num)
      (by norm_num [yearsDiff]) (by norm_num [yearsDiff]) (by norm_num [yearsDiff]),
   recency_bonus_band_monotone.2.1 0 47336400 63115200 (by norm_num) (by norm_num)
      (by norm_num [yearsDiff]) (by norm_num [yearsDiff]) (by norm_num [yearsDiff]),
   recency_bonus_band_monotone.2.2.1 0 94672800 126230400 (by norm_num) (by norm_num)
      (by norm_num [yearsDiff]) (by norm_num [yearsDiff]),
   recency_bonus_band_monotone.2.2.2.1 0 (-15778800) (-31557600) (by norm_num) (by norm_num)
      (by norm_num [yearsDiff]) (by norm_num [yearsDiff]) (by norm_num [yearsDiff]),
   recency_bonus_band_monotone.2.2.2.2.1 0 (-94672800) (-126230400) (by norm_num) (by norm_num)
      (by norm_num [yearsDiff]) (by norm_num [yearsDiff]) (by norm_num [yearsDiff]),
   recency_bonus_band_monotone.2.2.2.2.2.1 0 (-189345600) (-220903200) (by norm_num) (by norm_num)
      (by norm_num [yearsDiff]) (by norm_num [yearsDiff]) (by norm_num [yearsDiff]),
   recency_bonus_band_monotone.2.2.2.2.2.2 0 (-347133600) (-378691200) (by norm_num) (by norm_num)
      (by norm_num [yearsDiff]) (by norm_num [yearsDiff])⟩

/-! ### The noise-keyword penalty (C10) -/

/-- C10: the noise-keyword penalty tests substring containment of each
keyword in the whole normalized candidate name, not word-level membership,
and when the base score is positive and some keyword is contained, the
cumulative score is multiplied by 0.3 exactly once (the loop stops at the
first matching keyword; the 1.0 cap never bites because the pre-noise score
is at most 1.3). The name "grand theft auto" demonstrates the substring
semantics: it triggers the penalty via the keyword "and" inside "grand"
although no keyword occurs in it as a whole word. -/
theorem noise_penalty_substring_times_03_once :
    (∀ (q : String) (now : Int) (g : Game),
      hasNoisePenalty (normalizeName g.name) = true →
      0 < baseNameScore q (normalizeName g.name) →
      calculateMatchScore q now g =
        scorePreNoise now g (baseNameScore q (normalizeName g.name)) * 0.3) ∧
    hasNoisePenalty "grand theft auto" = true ∧
    (∀ w ∈ penaltyWords, ¬ w ∈ goFields "grand theft auto") := by
  refine ⟨?_, by decide, by decide⟩
  intro q now g hn hb
  have h0 : (0:ℚ) ≤ baseNameScore q (normalizeName g.name) := le_of_lt hb
  have h1 : baseNameScore q (normalizeName g.name) ≤ 1 :=
    baseNameScore_le_one q (normalizeName g.name)
  have hp1 : scorePreNoise now g (baseNameScore q (normalizeName g.name)) ≤ 13/10 :=
    scorePreNoise_le now g (baseNameScore q (normalizeName g.name)) h0 h1
  unfold calculateMatchScore
  simp only []
  rw [if_pos hb, hn, if_pos rfl, if_neg]
  linarith

/-- Witness for C10: the exact-match query against "Grand Theft Auto" is
scored as the pre-noise pipeline value times 0.3. -/
theorem noise_penalty_substring_times_03_once_witness :
    calculateMatchScore "grand theft auto" 0 ⟨"Grand Theft Auto", 0, 0⟩ =
      scorePreNoise 0 ⟨"Grand Theft Auto", 0, 0⟩
        (baseNameScore "grand theft auto" (normalizeName "Grand Theft Auto")) * 0.3 :=
  noise_penalty_substring_times_03_once.1 "grand theft auto" 0
    ⟨"Grand Theft Auto", 0, 0⟩ (by decide)
    (by unfold baseNameScore; rw [if_pos (by decide)]; norm_num)

/-! ### Matrix thread composition (C2, C8, C9) -/

/-- The relation block built by the relationship-handling code of the image
senders in matrix.go. -/
inductive Relation where
  | thread (rootID replyID : String)
  | reply (replyID : String)
  | noRelation
deriving DecidableEq

/-- The relationship handling of `sendMatrixImage` (matrix.go): with a thread
root set, a missing reply target is an error (no event is sent); otherwise a
thread relation, a plain reply relation, or no relation is attached. -/
def sendMatrixImageRelation (threadRootID replyID : String) :
    Except String Relation :=
  if threadRootID ≠ "" then
    if replyID = "" then Except.error "replyID must be set when replying in a thread"
    else Except.ok (Relation.thread threadRootID replyID)
  else if replyID ≠ "" then Except.ok (Relation.reply replyID)
  else Except.ok Relation.noRelation

/-- The identical relationship handling of `sendMatrixImageHTML`. -/
def sendMatrixImageHTMLRelation (threadRootID replyID : String) :
    Except String Relation :=
  if threadRootID ≠ "" then
    if replyID = "" then Except.error "replyID must be set when replying in a thread"
    else Except.ok (Relation.thread threadRootID replyID)
  else if replyID ≠ "" then Except.ok (Relation.reply replyID)
  else Except.ok Relation.noRelation

/-- C8: posting a threaded image reply fails (and sends nothing) exactly when
a thread-root event id is set without a parent reply id, in both the plain
and the HTML image sender. -/
theorem threaded_reply_requires_parent (rootID replyID : String) :
    ((∃ e, sendMatrixImageRelation rootID replyID = Except.error e) ↔
      rootID ≠ "" ∧ replyID = "") ∧
    ((∃ e, sendMatrixImageHTMLRelation rootID replyID = Except.error e) ↔
      rootID ≠ "" ∧ replyID = "") := by
  unfold sendMatrixImageRelation sendMatrixImageHTMLRelation
  constructor <;> (split_ifs with h1 h2 <;> simp_all)

/-- One attempted image post of the screenshot loop: the image URL, the
caption, and the thread-root / parent event ids passed to
`postIGDBImageToMatrix`. -/
structure ImagePost where
  url : String
  caption : String
  threadRootID : String
  replyID : String
deriving DecidableEq

/-- The screenshot loop of `SendGameNotificationWithImages` (matrix.go):
iterate the screenshot URLs with their indices, break once the index reaches
5, and post each screenshot with the given thread-root and reply ids. `send`
models `postIGDBImageToMatrix`: `some eventID` on success, `none` on failure.
The source discards the returned event id and never reassigns `replyID`,
which the recursion mirrors by passing `replyID` along unchanged. -/
def screenshotLoop (send : ImagePost → Option String)
    (title rootID replyID : String) :
    Nat → List String → List (ImagePost × Option String)
  | _, [] => []
  | i, url :: rest =>
    if i ≥ 5 then []
    else
      let post : ImagePost :=
        ⟨url, "Screenshot " ++ toString (i + 1) ++ " of " ++ title, rootID, replyID⟩
      (post, send post) :: screenshotLoop send title rootID replyID (i + 1) rest

/-- `SendGameNotificationWithImages` after a successful cover post: both the
thread root and the reply pointer are initialized to the cover event id and
the screenshot loop runs from index 0. Returns the attempted posts paired
with each send result. -/
def sendGameNotificationPosts (send : ImagePost → Option String)
    (title coverEventID : String) (screenshots : List String) :
    List (ImagePost × Option String) :=
  screenshotLoop send title coverEventID coverEventID 0 screenshots

lemma screenshotLoop_fixed_ids (send : ImagePost → Option String)
    (title rootID replyID : String) :
    ∀ (ss : List String) (i : Nat) (pr : ImagePost × Option String),
      pr ∈ screenshotLoop send title rootID replyID i ss →
      pr.1.threadRootID = rootID ∧ pr.1.replyID = replyID := by
  intro ss
  induction ss with
  | nil =>
    intro i pr h
    simp [screenshotLoop] at h
  | cons u rest ih =>
    intro i pr h
    by_cases hi : i ≥ 5
    · simp [screenshotLoop, hi] at h
    · rw [screenshotLoop, if_neg hi] at h
      rcases List.mem_cons.mp h with rfl | h2
      · exact ⟨rfl, rfl⟩
      · exact ih (i + 1) pr h2

/-- C2 counterexample: with a successfully posted cover event "root" and two
screenshots whose posts both succeed, the second reply is posted with parent
pointer "root" — the cover — and not "evt_s1", the event id returned for the
first reply; the parent pointer did not advance. -/
theorem thread_parent_advances_counterexample :
    (sendGameNotificationPosts (fun p => some ("evt_" ++ p.url)) "G" "root"
        ["s1", "s2"]).map (fun pr => (pr.1.replyID, pr.2)) =
      [("root", some "evt_s1"), ("root", some "evt_s2")] ∧
    ("root" : String) ≠ "evt_s1" := by
  constructor
  · rfl
  · decide

/-- C2 (amended): after the cover post succeeds, every posted screenshot
reply carries the cover event id as both thread root and parent pointer: the
parent pointer never advances, so the replies form a star rooted at the
cover, not a chain. -/
theorem thread_replies_form_star (send : ImagePost → Option String)
    (title coverEventID : String) (screenshots : List String) :
    ∀ pr ∈ sendGameNotificationPosts send title coverEventID screenshots,
      pr.1.threadRootID = coverEventID ∧ pr.1.replyID = coverEventID := by
  intro pr h
  exact screenshotLoop_fixed_ids send title coverEventID coverEventID
    screenshots 0 pr h

/-- Witness for C2 (amended) at the counterexample input: the first posted
reply targets the cover event id. -/
theorem thread_replies_form_star_witness :
    ((⟨⟨"s1", "Screenshot 1 of G", "root", "root"⟩, some "evt_s1"⟩ :
        ImagePost × Option String)).1.threadRootID = "root" ∧
    ((⟨⟨"s1", "Screenshot 1 of G", "root", "root"⟩, some "evt_s1"⟩ :
        ImagePost × Option String)).1.replyID = "root" :=
  thread_replies_form_star (fun p => some ("evt_" ++ p.url)) "G" "root"
    ["s1", "s2"] ⟨⟨"s1", "Screenshot 1 of G", "root", "root"⟩, some "evt_s1"⟩
    (by decide)

lemma screenshotLoop_take (send : ImagePost → Option String)
    (title rootID replyID : String) :
    ∀ (ss : List String) (i : Nat),
      (screenshotLoop send title rootID replyID i ss).map (fun pr => pr.1.url) =
        ss.take (5 - i) := by
  intro ss
  induction ss with
  | nil => intro i; simp [screenshotLoop]
  | cons u rest ih =>
    intro i
    by_cases hi : i ≥ 5
    · have h5 : 5 - i = 0 := by omega
      simp [screenshotLoop, hi, h5]
    · have h5 : 5 - i = (5 - (i + 1)) + 1 := by omega
      rw [h5, screenshotLoop, if_neg hi]
      simp only [List.map_cons, List.take_succ_cons]
      rw [ih (i + 1)]

/-- C9: for a candidate whose cover post succeeded, at most 5 screenshot
replies are ever attempted: the attempted URLs are exactly the first five
screenshots in order, and screenshots at index 5 and beyond are dropped. -/
theorem at_most_five_screenshots (send : ImagePost → Option String)
    (title coverEventID : String) (screenshots : List String) :
    (sendGameNotificationPosts send title coverEventID screenshots).map
        (fun pr => pr.1.url) = screenshots.take 5 ∧
    (sendGameNotificationPosts send title coverEventID screenshots).length ≤ 5 := by
  have h := screenshotLoop_take send title coverEventID coverEventID screenshots 0
  refine ⟨h, ?_⟩
  have hlen : (sendGameNotificationPosts send title coverEventID screenshots).length =
      (screenshots.take 5).length := by
    rw [← h, List.length_map]
    rfl
  rw [hlen]
  exact (List.length_take 5 screenshots).le.trans (min_le_left _ _)

end Zamunda
